import Mathlib

/-
Verification development for a GitHub secrets/variables management console.

The embedding models the bulk cross-product operation engine
(BulkOperations: createEnvironmentIfNeeded, bulkCreateSecrets,
bulkCreateVariables), the per-dialog secret/variable writers
(EnvironmentManager: createSecret, createVariable) and the inventory
reconciler (GlobalSecretsList: fetchAllSecretsAndVariables).

Network effects are modelled with an oracle: each (repository, environment)
target is mapped to the outcomes of the HTTP calls the code would issue
there.  An outcome is either a received HTTP response with a status code or
a transport error (the fetch promise rejecting).  Each operation returns,
besides its result value, the list of requests it issued, so that framing
claims (which requests are and are not issued) can be stated directly.
-/

namespace GhSecrets

/-- Outcome of one fetch call: an HTTP response with a numeric status, or a
transport error carrying the thrown error message. -/
inductive FetchOutcome where
  | resp (status : Nat)
  | err (msg : String)
deriving DecidableEq, Repr

/-- Semantics of the WHATWG Response.ok flag: status in the range 200-299. -/
def statusOk (s : Nat) : Bool := 200 ≤ s && s < 300

/-- A request issued against the remote API, identified by the path/method
components that vary (the organization segment is fixed per session).
envCheck is the GET on an environment resource, envCreate the PUT creating
it, secretPut the secret upsert (its body field is the transmitted
encrypted_value), varPost the variable creation, secretsList and
variablesList the GETs on an environment's secrets respectively variables
listing (issued by the fetchSecrets/fetchVariables refreshes). -/
inductive Request where
  | envCheck (repo env : String)
  | envCreate (repo env : String)
  | secretPut (repo env name body : String)
  | varPost (repo env name value : String)
  | secretsList (repo env : String)
  | variablesList (repo env : String)
deriving DecidableEq, Repr

/-- Oracle entry for one (repository, environment) target: the outcome the
environment existence GET would have, the outcome the environment create PUT
would have, and the outcome of the secret/variable write call. -/
structure TargetBehavior where
  envGet : FetchOutcome
  envPut : FetchOutcome
  write : FetchOutcome
deriving DecidableEq, Repr

/-- Per-target outcome record collected by the bulk engine
(interface OperationResult of the BulkOperations component). -/
structure OperationResult where
  repo : String
  environment : String
  success : Bool
  error : Option String
deriving DecidableEq, Repr

/-- Result of a bulk run: the ordered per-target results, the ordered list
of requests issued, and the successive values assigned to the progress bar
(one setProgress call per completed target). -/
structure BulkReport where
  results : List OperationResult
  trace : List Request
  progressEvents : List ℚ
deriving DecidableEq, Repr

/-- Embedding of the JavaScript validation test `!s.trim()`: true exactly
when the string is empty or consists of whitespace only. -/
def blank (s : String) : Bool := s.data.all Char.isWhitespace

/-- The fixed environment vocabulary COMMON_ENVIRONMENTS. -/
def COMMON_ENVIRONMENTS : List String := ["production", "staging", "development", "preview"]

/-- The base64 alphabet, in index order. -/
def b64Alphabet : List Char :=
  "ABCDEFGHIJKLMNOPQRSTUVWXYZabcdefghijklmnopqrstuvwxyz0123456789+/".data

/-- Character for a 6-bit group. -/
def b64Char (n : Nat) : Char := b64Alphabet.getD n 'A'

/-- Index of a base64 character in the alphabet. -/
def b64Index (c : Char) : Nat := b64Alphabet.findIdx (fun d => d == c)

/-- Standard base64 of a byte sequence, three bytes to four characters with
trailing padding, as computed by the JavaScript btoa builtin. -/
def base64EncodeBytes : List Nat → List Char
  | [] => []
  | [a] => [b64Char (a / 4), b64Char (a % 4 * 16), '=', '=']
  | [a, b] => [b64Char (a / 4), b64Char (a % 4 * 16 + b / 16), b64Char (b % 16 * 4), '=']
  | a :: b :: c :: rest =>
    b64Char (a / 4) :: b64Char (a % 4 * 16 + b / 16) :: b64Char (b % 16 * 4 + c / 64) ::
      b64Char (c % 64) :: base64EncodeBytes rest

/-- Standard base64 decoding, the mathematical inverse of base64 encoding
(the atob builtin), used to state that the encoding is reversible. -/
def base64DecodeChars : List Char → List Nat
  | w :: x :: y :: z :: rest =>
    if y = '=' then [b64Index w * 4 + b64Index x / 16]
    else if z = '=' then
      [b64Index w * 4 + b64Index x / 16, b64Index x % 16 * 16 + b64Index y / 4]
    else
      (b64Index w * 4 + b64Index x / 16) :: (b64Index x % 16 * 16 + b64Index y / 4) ::
        (b64Index y % 4 * 64 + b64Index z) :: base64DecodeChars rest
  | _ => []

/-- The btoa builtin on a latin-1 string: base64 of its code units. -/
def btoa (s : String) : String := String.mk (base64EncodeBytes (s.data.map Char.toNat))

/-- The atob builtin: decode base64 back to a latin-1 string. -/
def atob (s : String) : String := String.mk ((base64DecodeChars s.data).map Char.ofNat)

/-- The target sequence of a bulk run in loop order: outer loop over the
selected repositories, inner loop over the selected environments. -/
def targetList : List String → List String → List (String × String)
  | [], _ => []
  | r :: rs, envs => envs.map (fun e => (r, e)) ++ targetList rs envs

namespace BulkOperations

/-- Embedding of createEnvironmentIfNeeded (BulkOperations component).
GET the environment; on 404 issue the create PUT and return its ok flag;
on any received non-404 response return that response's ok flag; a
transport error is caught and yields false.  Also returns the requests
issued. -/
def createEnvironmentIfNeeded (repo env : String) (b : TargetBehavior) : Bool × List Request :=
  match b.envGet with
  | FetchOutcome.err _ => (false, [Request.envCheck repo env])
  | FetchOutcome.resp s =>
    if s = 404 then
      match b.envPut with
      | FetchOutcome.err _ => (false, [Request.envCheck repo env, Request.envCreate repo env])
      | FetchOutcome.resp s2 =>
        (statusOk s2, [Request.envCheck repo env, Request.envCreate repo env])
    else (statusOk s, [Request.envCheck repo env])

/-- One loop iteration of bulkCreateSecrets for target (repo, env): ensure
the environment, on failure record the fixed error and skip the write; else
issue the secret PUT whose body carries btoa of the value, recording the ok
flag or the HTTP status, and catching a transport error as the result's
error message. -/
def processSecretTarget (secretName secretValue repo env : String) (b : TargetBehavior) :
    OperationResult × List Request :=
  if (createEnvironmentIfNeeded repo env b).1 then
    match b.write with
    | FetchOutcome.resp s =>
      (⟨repo, env, statusOk s, if statusOk s then none else some ("HTTP " ++ toString s)⟩,
        (createEnvironmentIfNeeded repo env b).2 ++
          [Request.secretPut repo env secretName (btoa secretValue)])
    | FetchOutcome.err m =>
      (⟨repo, env, false, some m⟩,
        (createEnvironmentIfNeeded repo env b).2 ++
          [Request.secretPut repo env secretName (btoa secretValue)])
  else
    (⟨repo, env, false, some "Failed to create/access environment"⟩,
      (createEnvironmentIfNeeded repo env b).2)

/-- One loop iteration of bulkCreateVariables for target (repo, env); the
write is the variable create POST carrying the plain name and value. -/
def processVariableTarget (variableName variableValue repo env : String) (b : TargetBehavior) :
    OperationResult × List Request :=
  if (createEnvironmentIfNeeded repo env b).1 then
    match b.write with
    | FetchOutcome.resp s =>
      (⟨repo, env, statusOk s, if statusOk s then none else some ("HTTP " ++ toString s)⟩,
        (createEnvironmentIfNeeded repo env b).2 ++
          [Request.varPost repo env variableName variableValue])
    | FetchOutcome.err m =>
      (⟨repo, env, false, some m⟩,
        (createEnvironmentIfNeeded repo env b).2 ++
          [Request.varPost repo env variableName variableValue])
  else
    (⟨repo, env, false, some "Failed to create/access environment"⟩,
      (createEnvironmentIfNeeded repo env b).2)

/-- The sequential bulk loop: processes the targets in order, threading the
completedOperations counter and emitting one progress value
(completed / total) * 100 after each target. -/
def runBulkAux (total : Nat) (proc : String → String → OperationResult × List Request) :
    Nat → List (String × String) → BulkReport
  | _, [] => ⟨[], [], []⟩
  | completed, t :: ts =>
    let pr := proc t.1 t.2
    let rest := runBulkAux total proc (completed + 1) ts
    ⟨pr.1 :: rest.results, pr.2 ++ rest.trace,
      (((completed + 1 : Nat) : ℚ) / (total : ℚ)) * 100 :: rest.progressEvents⟩

/-- Embedding of bulkCreateSecrets: pre-flight validation (empty or
whitespace-only name or value, empty selections) rejects the run before any
request; otherwise the engine runs over the full Cartesian product in loop
order. -/
def bulkCreateSecrets (secretName secretValue : String) (repos envs : List String)
    (oracle : String → String → TargetBehavior) : Option BulkReport :=
  if blank secretName ∨ blank secretValue ∨ repos = [] ∨ envs = [] then none
  else some (runBulkAux (repos.length * envs.length)
    (fun r e => processSecretTarget secretName secretValue r e (oracle r e)) 0
    (targetList repos envs))

/-- Embedding of bulkCreateVariables, the variable counterpart. -/
def bulkCreateVariables (variableName variableValue : String) (repos envs : List String)
    (oracle : String → String → TargetBehavior) : Option BulkReport :=
  if blank variableName ∨ blank variableValue ∨ repos = [] ∨ envs = [] then none
  else some (runBulkAux (repos.length * envs.length)
    (fun r e => processVariableTarget variableName variableValue r e (oracle r e)) 0
    (targetList repos envs))

/-- Aggregate success count of a report, as computed for the completion
toast: the number of results whose success flag is set. -/
def successCount (rep : BulkReport) : Nat := (rep.results.filter (fun r => r.success)).length

end BulkOperations

namespace EnvironmentManager

/-- The write loop shared by createSecret and createVariable of the
EnvironmentManager component: issue one write per target in loop order and
count the ok responses.  The whole loop sits in a single try block, so a
transport error aborts the remaining targets and surfaces as the catch
branch (no aggregate count is produced); received error statuses merely do
not increment the count. -/
def runWrites (mk : String → String → Request) (oracle : String → String → TargetBehavior) :
    List (String × String) → Except String Nat × List Request
  | [] => (Except.ok 0, [])
  | t :: ts =>
    match (oracle t.1 t.2).write with
    | FetchOutcome.err m => (Except.error m, [mk t.1 t.2])
    | FetchOutcome.resp s =>
      let rest := runWrites mk oracle ts
      (match rest.1 with
       | Except.error m => Except.error m
       | Except.ok cnt => Except.ok ((if statusOk s then 1 else 0) + cnt),
       mk t.1 t.2 :: rest.2)

/-- Embedding of createSecret (EnvironmentManager component): validate name
and value, choose targets from bulk mode or the single current
(repository, environment), then run the secret PUT writes.  The outcome is
the aggregate (successCount, totalCount) pair of the completion toast, or
the caught transport error; no per-target records and no environment
check/create calls exist in this code path.  When the write loop completes
without a throw, the success path calls fetchSecrets, which issues one
refresh GET on the current dialog's secrets listing. -/
def createSecret (secretName secretValue repository environment : String) (bulkMode : Bool)
    (selectedRepos selectedEnvironments : List String)
    (oracle : String → String → TargetBehavior) :
    Option (Except String (Nat × Nat) × List Request) :=
  if blank secretName ∨ blank secretValue then none
  else
    let targetRepos := if bulkMode then selectedRepos else [repository]
    let targetEnvs := if bulkMode then selectedEnvironments else [environment]
    let run := runWrites (fun r e => Request.secretPut r e secretName (btoa secretValue))
      oracle (targetList targetRepos targetEnvs)
    some (run.1.map (fun c => (c, targetRepos.length * targetEnvs.length)),
      run.2 ++ (match run.1 with
        | Except.ok _ => [Request.secretsList repository environment]
        | Except.error _ => []))

/-- Embedding of createVariable (EnvironmentManager component), the
variable counterpart issuing POST writes with the plain name and value,
followed on the success path by the fetchVariables refresh GET on the
current dialog's variables listing. -/
def createVariable (variableName variableValue repository environment : String) (bulkMode : Bool)
    (selectedRepos selectedEnvironments : List String)
    (oracle : String → String → TargetBehavior) :
    Option (Except String (Nat × Nat) × List Request) :=
  if blank variableName ∨ blank variableValue then none
  else
    let targetRepos := if bulkMode then selectedRepos else [repository]
    let targetEnvs := if bulkMode then selectedEnvironments else [environment]
    let run := runWrites (fun r e => Request.varPost r e variableName variableValue)
      oracle (targetList targetRepos targetEnvs)
    some (run.1.map (fun c => (c, targetRepos.length * targetEnvs.length)),
      run.2 ++ (match run.1 with
        | Except.ok _ => [Request.variablesList repository environment]
        | Except.error _ => []))

end EnvironmentManager

namespace GlobalSecretsList

/-- The location-equality key used by the reconciler:
the string repository:environment. -/
def locKey (loc : String × String) : String := loc.1 ++ ":" ++ loc.2

/-- Insertion-ordered map update: if the name is already a key, push the
location onto its list, otherwise append a fresh entry, mirroring the
JavaScript Map upsert (set on first sighting, then push). -/
def upsertLoc : List (String × List (String × String)) → String → String × String →
    List (String × List (String × String))
  | [], n, loc => [(n, [loc])]
  | (k, ls) :: rest, n, loc =>
    if k = n then (k, ls ++ [loc]) :: rest else (k, ls) :: upsertLoc rest n loc

/-- Record every name of one per-pair listing at location (repo, env). -/
def addListing (m : List (String × List (String × String))) (repo env : String)
    (names : List String) : List (String × List (String × String)) :=
  names.foldl (fun acc n => upsertLoc acc n (repo, env)) m

/-- Phase one of fetchAllSecretsAndVariables for one kind of item: iterate
the (repository, environment) grid in loop order; a failed listing (non-ok
response or transport error, modelled as none) contributes nothing; a
successful listing records each reported name at that location. -/
def scanDefined (listing : String → String → Option (List String)) (repos envs : List String) :
    List (String × List (String × String)) :=
  (targetList repos envs).foldl
    (fun acc t =>
      match listing t.1 t.2 with
      | some names => addListing acc t.1 t.2 names
      | none => acc) []

/-- Name-keyed inventory aggregate: where the name is defined and where it
is missing, over the full repository × environment grid. -/
structure InventoryEntry where
  name : String
  locations : List (String × String)
  missingIn : List (String × String)
deriving DecidableEq, Repr

/-- Phase two of fetchAllSecretsAndVariables: for every entry, missingIn is
the full grid filtered by the keys absent from the entry's locations
(membership through the repository:environment key set). -/
def computeMissing (repos envs : List String) (m : List (String × List (String × String))) :
    List InventoryEntry :=
  m.map (fun p =>
    ⟨p.1, p.2,
      (targetList repos envs).filter
        (fun loc => !((p.2.map locKey).contains (locKey loc)))⟩)

/-- Embedding of the whole scan for one kind of item over the fixed
environment vocabulary. -/
def scan (listing : String → String → Option (List String)) (repos : List String) :
    List InventoryEntry :=
  computeMissing repos COMMON_ENVIRONMENTS (scanDefined listing repos COMMON_ENVIRONMENTS)

end GlobalSecretsList

/-
Lemmas about base64: the encoding used for the transmitted secret value is
reversible, byte for byte.
-/

theorem b64Index_b64Char : ∀ n, n < 64 → b64Index (b64Char n) = n := by decide

theorem b64Char_ne_pad : ∀ n, n < 64 → b64Char n ≠ '=' := by decide

theorem base64_decode_encode : ∀ (bs : List Nat), (∀ b ∈ bs, b < 256) →
    base64DecodeChars (base64EncodeBytes bs) = bs
  | [], _ => rfl
  | [a], h => by
    have ha : a < 256 := h a (by simp)
    have h1 : a / 4 < 64 := by omega
    have h2 : a % 4 * 16 < 64 := by omega
    show base64DecodeChars [b64Char (a / 4), b64Char (a % 4 * 16), '=', '='] = [a]
    unfold base64DecodeChars
    rw [if_pos rfl]
    rw [b64Index_b64Char _ h1, b64Index_b64Char _ h2]
    simp only [List.cons.injEq, and_true]
    omega
  | [a, b], h => by
    have ha : a < 256 := h a (by simp)
    have hb : b < 256 := h b (by simp)
    have h1 : a / 4 < 64 := by omega
    have h2 : a % 4 * 16 + b / 16 < 64 := by omega
    have h3 : b % 16 * 4 < 64 := by omega
    show base64DecodeChars
      [b64Char (a / 4), b64Char (a % 4 * 16 + b / 16), b64Char (b % 16 * 4), '='] = [a, b]
    unfold base64DecodeChars
    rw [if_neg (b64Char_ne_pad _ h3), if_pos rfl]
    rw [b64Index_b64Char _ h1, b64Index_b64Char _ h2, b64Index_b64Char _ h3]
    simp only [List.cons.injEq, and_true]
    omega
  | a :: b :: c :: rest, h => by
    have ha : a < 256 := h a (by simp)
    have hb : b < 256 := h b (by simp)
    have hc : c < 256 := h c (by simp)
    have h1 : a / 4 < 64 := by omega
    have h2 : a % 4 * 16 + b / 16 < 64 := by omega
    have h3 : b % 16 * 4 + c / 64 < 64 := by omega
    have h4 : c % 64 < 64 := by omega
    have ih := base64_decode_encode rest (fun x hx => h x (by simp [hx]))
    show base64DecodeChars
      (b64Char (a / 4) :: b64Char (a % 4 * 16 + b / 16) :: b64Char (b % 16 * 4 + c / 64) ::
        b64Char (c % 64) :: base64EncodeBytes rest) = a :: b :: c :: rest
    unfold base64DecodeChars
    rw [if_neg (b64Char_ne_pad _ h3), if_neg (b64Char_ne_pad _ h4)]
    rw [b64Index_b64Char _ h1, b64Index_b64Char _ h2, b64Index_b64Char _ h3,
      b64Index_b64Char _ h4, ih]
    simp only [List.cons.injEq, and_true]
    refine ⟨by omega, by omega, by omega⟩

theorem atob_btoa (v : String) (h : ∀ c ∈ v.data, c.toNat < 256) : atob (btoa v) = v := by
  have hb : ∀ b ∈ v.data.map Char.toNat, b < 256 := by
    intro b hbm
    rcases List.mem_map.mp hbm with ⟨c, hcm, hcv⟩
    rw [← hcv]
    exact h c hcm
  apply String.ext
  show (base64DecodeChars (base64EncodeBytes (v.data.map Char.toNat))).map Char.ofNat = v.data
  rw [base64_decode_encode _ hb, List.map_map]
  have h2 := List.map_congr_left (l := v.data) (f := Char.ofNat ∘ Char.toNat) (g := id)
    (fun c _ => Char.ofNat_toNat c)
  simpa using h2

/-
General lemmas about the target sequence and the bulk loop.
-/

theorem mem_targetList : ∀ {repos envs : List String} {t : String × String},
    t ∈ targetList repos envs ↔ t.1 ∈ repos ∧ t.2 ∈ envs := by
  intro repos
  induction repos with
  | nil => intro envs t; simp [targetList]
  | cons r rs ih =>
    intro envs t
    obtain ⟨a, b⟩ := t
    constructor
    · intro h
      rcases List.mem_append.mp h with h1 | h2
      · rcases List.mem_map.mp h1 with ⟨e, he, hpair⟩
        obtain ⟨rfl, rfl⟩ := Prod.mk.injEq .. |>.mp hpair
        exact ⟨List.mem_cons_self _ _, he⟩
      · rcases (ih (t := (a, b))).mp h2 with ⟨h3, h4⟩
        exact ⟨List.mem_cons_of_mem _ h3, h4⟩
    · rintro ⟨h1, h2⟩
      rcases List.mem_cons.mp h1 with rfl | h3
      · exact List.mem_append.mpr (Or.inl (List.mem_map.mpr ⟨b, h2, rfl⟩))
      · exact List.mem_append.mpr (Or.inr ((ih (t := (a, b))).mpr ⟨h3, h2⟩))

theorem length_targetList : ∀ (repos envs : List String),
    (targetList repos envs).length = repos.length * envs.length := by
  intro repos envs
  induction repos with
  | nil => simp [targetList]
  | cons r rs ih =>
    simp only [targetList, List.length_append, List.length_map, ih, List.length_cons]
    ring

theorem nodup_targetList {repos envs : List String} (hr : repos.Nodup) (he : envs.Nodup) :
    (targetList repos envs).Nodup := by
  induction repos with
  | nil => simp [targetList]
  | cons r rs ih =>
    simp only [targetList]
    have hr2 := List.nodup_cons.mp hr
    refine List.Nodup.append (he.map ?_) (ih hr2.2) ?_
    · intro e1 e2 h
      exact (Prod.mk.injEq .. |>.mp h).2
    · intro t h1 h2
      rcases List.mem_map.mp h1 with ⟨e, _, hpair⟩
      have h3 := (mem_targetList.mp h2).1
      rw [← hpair] at h3
      exact hr2.1 h3

theorem targetList_get : ∀ (repos : List String) (envs : List String) (i j : Nat)
    (hi : i < repos.length) (hj : j < envs.length)
    (hk : i * envs.length + j < (targetList repos envs).length),
    (targetList repos envs).get ⟨i * envs.length + j, hk⟩ =
      (repos.get ⟨i, hi⟩, envs.get ⟨j, hj⟩) := by
  intro repos
  induction repos with
  | nil => intro envs i j hi; exact absurd hi (by simp)
  | cons r rs ih =>
    intro envs i j hi hj hk
    cases i with
    | zero =>
      simp only [targetList, List.get_eq_getElem, Nat.zero_mul, Nat.zero_add]
      rw [List.getElem_append_left (by simpa using hj)]
      simp [List.getElem_map]
    | succ i =>
      have hlen : envs.length ≤ (i + 1) * envs.length + j := by
        have : 1 * envs.length ≤ (i + 1) * envs.length :=
          Nat.mul_le_mul_right _ (by omega)
        omega
      have hi2 : i < rs.length := by simpa using hi
      have hk2 : i * envs.length + j < (targetList rs envs).length := by
        rw [length_targetList]
        calc i * envs.length + j < (i + 1) * envs.length := by
              rw [Nat.succ_mul]; omega
          _ ≤ rs.length * envs.length := Nat.mul_le_mul_right _ (by omega)
      simp only [targetList, List.get_eq_getElem]
      rw [List.getElem_append_right (by simpa using hlen)]
      have hidx : (i + 1) * envs.length + j - (List.map (fun e => (r, e)) envs).length =
          i * envs.length + j := by
        simp only [List.length_map]
        have hsm : (i + 1) * envs.length = i * envs.length + envs.length := by ring
        omega
      have := ih envs i j hi2 hj hk2
      simp only [List.get_eq_getElem] at this
      simp_rw [hidx]
      exact this

namespace BulkOperations

theorem runBulkAux_results (total : Nat)
    (proc : String → String → OperationResult × List Request) :
    ∀ (c : Nat) (ts : List (String × String)),
    (runBulkAux total proc c ts).results = ts.map (fun t => (proc t.1 t.2).1) := by
  intro c ts
  induction ts generalizing c with
  | nil => rfl
  | cons t ts ih => simp [runBulkAux, ih]

theorem runBulkAux_trace_mem (total : Nat)
    (proc : String → String → OperationResult × List Request) :
    ∀ (c : Nat) (ts : List (String × String)) (req : Request),
    req ∈ (runBulkAux total proc c ts).trace ↔ ∃ t ∈ ts, req ∈ (proc t.1 t.2).2 := by
  intro c ts req
  induction ts generalizing c with
  | nil => simp [runBulkAux]
  | cons t ts ih =>
    simp only [runBulkAux, List.mem_append, ih, List.mem_cons]
    constructor
    · rintro (h | ⟨u, hu, hr⟩)
      · exact ⟨t, Or.inl rfl, h⟩
      · exact ⟨u, Or.inr hu, hr⟩
    · rintro ⟨u, hu | hu, hr⟩
      · subst hu; exact Or.inl hr
      · exact Or.inr ⟨u, hu, hr⟩

theorem runBulkAux_progress (total : Nat)
    (proc : String → String → OperationResult × List Request) :
    ∀ (c : Nat) (ts : List (String × String)),
    (runBulkAux total proc c ts).progressEvents =
      (List.range ts.length).map
        (fun k => (((c + k + 1 : Nat) : ℚ) / (total : ℚ)) * 100) := by
  intro c ts
  induction ts generalizing c with
  | nil => rfl
  | cons t ts ih =>
    have h2 : List.map
        ((fun k => (((c + k + 1 : Nat) : ℚ) / (total : ℚ)) * 100) ∘ Nat.succ)
        (List.range ts.length) =
        List.map (fun k => (((c + 1 + k + 1 : Nat) : ℚ) / (total : ℚ)) * 100)
          (List.range ts.length) := by
      apply List.map_congr_left
      intro k _
      simp only [Function.comp_apply]
      push_cast
      ring
    simp only [runBulkAux, List.length_cons, List.range_succ_eq_map, List.map_cons,
      List.map_map, ih, h2]

theorem processSecretTarget_pair (n v r e : String) (b : TargetBehavior) :
    (processSecretTarget n v r e b).1.repo = r ∧
      (processSecretTarget n v r e b).1.environment = e := by
  unfold processSecretTarget
  split
  · split <;> exact ⟨rfl, rfl⟩
  · exact ⟨rfl, rfl⟩

theorem processVariableTarget_pair (n v r e : String) (b : TargetBehavior) :
    (processVariableTarget n v r e b).1.repo = r ∧
      (processVariableTarget n v r e b).1.environment = e := by
  unfold processVariableTarget
  split
  · split <;> exact ⟨rfl, rfl⟩
  · exact ⟨rfl, rfl⟩

theorem createEnvironmentIfNeeded_trace (r e : String) (b : TargetBehavior) :
    ∀ req ∈ (createEnvironmentIfNeeded r e b).2,
      req = Request.envCheck r e ∨ req = Request.envCreate r e := by
  obtain ⟨eg, ep, w⟩ := b
  cases eg with
  | err m =>
    intro req h
    simp only [createEnvironmentIfNeeded] at h
    simp at h
    simp [h]
  | resp s =>
    intro req h
    simp only [createEnvironmentIfNeeded] at h
    split at h
    · cases ep <;> simp at h <;> rcases h with h | h <;> simp [h]
    · simp at h; simp [h]

theorem processSecretTarget_env_fail (n v r e : String) (b : TargetBehavior)
    (h : (createEnvironmentIfNeeded r e b).1 = false) :
    processSecretTarget n v r e b =
      (⟨r, e, false, some "Failed to create/access environment"⟩,
        (createEnvironmentIfNeeded r e b).2) := by
  unfold processSecretTarget
  simp [h]

theorem processVariableTarget_env_fail (n v r e : String) (b : TargetBehavior)
    (h : (createEnvironmentIfNeeded r e b).1 = false) :
    processVariableTarget n v r e b =
      (⟨r, e, false, some "Failed to create/access environment"⟩,
        (createEnvironmentIfNeeded r e b).2) := by
  unfold processVariableTarget
  simp [h]

theorem processSecretTarget_trace (n v r e : String) (b : TargetBehavior) :
    ∀ req ∈ (processSecretTarget n v r e b).2,
      req = Request.envCheck r e ∨ req = Request.envCreate r e ∨
        req = Request.secretPut r e n (btoa v) := by
  intro req h
  unfold processSecretTarget at h
  split at h
  · split at h <;>
    · rcases List.mem_append.mp h with h2 | h2
      · rcases createEnvironmentIfNeeded_trace r e b req h2 with h3 | h3
        · exact Or.inl h3
        · exact Or.inr (Or.inl h3)
      · exact Or.inr (Or.inr (by simpa using h2))
  · rcases createEnvironmentIfNeeded_trace r e b req h with h3 | h3
    · exact Or.inl h3
    · exact Or.inr (Or.inl h3)

theorem processVariableTarget_trace (n v r e : String) (b : TargetBehavior) :
    ∀ req ∈ (processVariableTarget n v r e b).2,
      req = Request.envCheck r e ∨ req = Request.envCreate r e ∨
        req = Request.varPost r e n v := by
  intro req h
  unfold processVariableTarget at h
  split at h
  · split at h <;>
    · rcases List.mem_append.mp h with h2 | h2
      · rcases createEnvironmentIfNeeded_trace r e b req h2 with h3 | h3
        · exact Or.inl h3
        · exact Or.inr (Or.inl h3)
      · exact Or.inr (Or.inr (by simpa using h2))
  · rcases createEnvironmentIfNeeded_trace r e b req h with h3 | h3
    · exact Or.inl h3
    · exact Or.inr (Or.inl h3)

end BulkOperations

namespace EnvironmentManager

/-- Whether the write at a target would receive an ok response. -/
def writeOk (oracle : String → String → TargetBehavior) (t : String × String) : Bool :=
  match (oracle t.1 t.2).write with
  | FetchOutcome.resp s => statusOk s
  | FetchOutcome.err _ => false

theorem runWrites_trace_shape (mk : String → String → Request)
    (oracle : String → String → TargetBehavior) :
    ∀ (ts : List (String × String)) (req : Request),
      req ∈ (runWrites mk oracle ts).2 → ∃ t ∈ ts, req = mk t.1 t.2 := by
  intro ts
  induction ts with
  | nil => intro req h; simp [runWrites] at h
  | cons t ts ih =>
    intro req h
    simp only [runWrites] at h
    split at h
    · have : req = mk t.1 t.2 := by simpa using h
      exact ⟨t, by simp, this⟩
    · rcases List.mem_cons.mp h with h2 | h2
      · exact ⟨t, by simp, h2⟩
      · rcases ih req h2 with ⟨u, hu, hr⟩
        exact ⟨u, by simp [hu], hr⟩

theorem runWrites_all_resp (mk : String → String → Request)
    (oracle : String → String → TargetBehavior) :
    ∀ (ts : List (String × String)),
      (∀ t ∈ ts, ∃ s, (oracle t.1 t.2).write = FetchOutcome.resp s) →
      (runWrites mk oracle ts).1 = Except.ok (ts.filter (writeOk oracle)).length ∧
        (runWrites mk oracle ts).2 = ts.map (fun t => mk t.1 t.2) := by
  intro ts
  induction ts with
  | nil => intro _; exact ⟨rfl, rfl⟩
  | cons t ts ih =>
    intro h
    obtain ⟨s, hs⟩ := h t (by simp)
    have ih2 := ih (fun u hu => h u (by simp [hu]))
    have htrace : (runWrites mk oracle (t :: ts)).2 =
        List.map (fun u => mk u.1 u.2) (t :: ts) := by
      simp only [runWrites, hs, List.map_cons, ih2.2]
    have hcount : (runWrites mk oracle (t :: ts)).1 =
        Except.ok (List.filter (writeOk oracle) (t :: ts)).length := by
      simp only [runWrites, hs, ih2.1, List.filter_cons]
      by_cases hok : statusOk s = true
      · simp [writeOk, hs, hok]
        omega
      · simp only [Bool.not_eq_true] at hok
        simp [writeOk, hs, hok]
    exact ⟨hcount, htrace⟩

theorem runWrites_env_independent (mk : String → String → Request)
    (o1 o2 : String → String → TargetBehavior)
    (hw : ∀ r e, (o1 r e).write = (o2 r e).write) :
    ∀ (ts : List (String × String)), runWrites mk o1 ts = runWrites mk o2 ts := by
  intro ts
  induction ts with
  | nil => rfl
  | cons t ts ih => simp only [runWrites, hw t.1 t.2, ih]

end EnvironmentManager

namespace GlobalSecretsList

/-- Association lookup for the insertion-ordered name map. -/
def findVals : List (String × List (String × String)) → String →
    Option (List (String × String))
  | [], _ => none
  | (k, ls) :: rest, n => if k = n then some ls else findVals rest n

/-- The keys of the name map, in order. -/
def keysOf (m : List (String × List (String × String))) : List String := m.map Prod.fst

theorem keysOf_upsertLoc (m : List (String × List (String × String))) (n : String)
    (loc : String × String) :
    keysOf (upsertLoc m n loc) = if n ∈ keysOf m then keysOf m else keysOf m ++ [n] := by
  induction m with
  | nil => simp [upsertLoc, keysOf]
  | cons p m ih =>
    obtain ⟨k, ls⟩ := p
    by_cases hk : k = n
    · subst hk
      simp [upsertLoc, keysOf]
    · have hne : ¬ n = k := fun hcon => hk hcon.symm
      simp only [upsertLoc, if_neg hk, keysOf, List.map_cons] at ih ⊢
      rw [ih]
      by_cases hmem : n ∈ List.map Prod.fst m
      · simp [hmem, hne]
      · simp [hmem, hne]

theorem keyNodup_upsertLoc {m : List (String × List (String × String))} (n : String)
    (loc : String × String) (h : (keysOf m).Nodup) : (keysOf (upsertLoc m n loc)).Nodup := by
  rw [keysOf_upsertLoc]
  by_cases hmem : n ∈ keysOf m
  · simpa [hmem] using h
  · simp only [hmem, if_false]
    simp [List.nodup_append, h, hmem]

theorem findVals_upsertLoc_self (m : List (String × List (String × String))) (n : String)
    (loc : String × String) :
    findVals (upsertLoc m n loc) n = some ((findVals m n).getD [] ++ [loc]) := by
  induction m with
  | nil => simp [upsertLoc, findVals]
  | cons p m ih =>
    obtain ⟨k, ls⟩ := p
    by_cases hk : k = n
    · subst hk
      simp [upsertLoc, findVals]
    · simp [upsertLoc, findVals, hk, ih]

theorem findVals_upsertLoc_other (m : List (String × List (String × String)))
    {n' n : String} (loc : String × String) (h : n' ≠ n) :
    findVals (upsertLoc m n' loc) n = findVals m n := by
  induction m with
  | nil => simp [upsertLoc, findVals, h]
  | cons p m ih =>
    obtain ⟨k, ls⟩ := p
    by_cases hk : k = n'
    · subst hk
      simp [upsertLoc, findVals, h, ih]
    · simp [upsertLoc, findVals, hk, ih]

theorem findVals_addListing (repo env : String) :
    ∀ (names : List String) (m : List (String × List (String × String))) (n : String),
      names.Nodup →
      findVals (addListing m repo env names) n =
        if n ∈ names then some ((findVals m n).getD [] ++ [(repo, env)])
        else findVals m n := by
  intro names
  induction names with
  | nil => intro m n _; simp [addListing]
  | cons n' names ih =>
    intro m n hnd
    have hnd2 := List.nodup_cons.mp hnd
    have step : addListing m repo env (n' :: names) =
        addListing (upsertLoc m n' (repo, env)) repo env names := rfl
    rw [step]
    by_cases hn : n = n'
    · subst hn
      have hnot : n ∉ names := hnd2.1
      rw [ih _ n hnd2.2, if_neg hnot, if_pos (by simp)]
      rw [findVals_upsertLoc_self]
    · rw [ih _ n hnd2.2, findVals_upsertLoc_other _ _ (fun h => hn h.symm)]
      by_cases hmem : n ∈ names
      · simp [hmem, hn]
      · simp [hmem, hn]

/-- Whether the listing of target t reports the name n. -/
def reportsB (listing : String → String → Option (List String)) (n : String)
    (t : String × String) : Bool :=
  match listing t.1 t.2 with
  | some names => names.contains n
  | none => false

theorem findVals_scanFold (listing : String → String → Option (List String))
    (hnod : ∀ r e names, listing r e = some names → names.Nodup) (n : String) :
    ∀ (ts : List (String × String)) (m : List (String × List (String × String))),
      (findVals (ts.foldl (fun acc t =>
          match listing t.1 t.2 with
          | some names => addListing acc t.1 t.2 names
          | none => acc) m) n).getD [] =
        (findVals m n).getD [] ++ ts.filter (reportsB listing n) := by
  intro ts
  induction ts with
  | nil => intro m; simp
  | cons t ts ih =>
    intro m
    rw [List.foldl_cons]
    cases hl : listing t.1 t.2 with
    | none =>
      have hr : reportsB listing n t = false := by simp [reportsB, hl]
      simp only [hl, ih, List.filter_cons, hr]
      simp
    | some names =>
      have hnd := hnod t.1 t.2 names hl
      by_cases hmem : n ∈ names
      · have hr : reportsB listing n t = true := by
          simp [reportsB, hl, List.elem_iff, hmem]
        simp only [hl, ih, List.filter_cons, hr, if_true]
        rw [findVals_addListing _ _ _ _ _ hnd, if_pos hmem]
        simp
      · have hr : reportsB listing n t = false := by
          simp [reportsB, hl, List.elem_iff, hmem]
        simp only [hl, ih, List.filter_cons, hr]
        rw [findVals_addListing _ _ _ _ _ hnd, if_neg hmem]
        simp

theorem findVals_scanFold_none (listing : String → String → Option (List String))
    (hnod : ∀ r e names, listing r e = some names → names.Nodup) (n : String) :
    ∀ (ts : List (String × String)) (m : List (String × List (String × String))),
      (findVals (ts.foldl (fun acc t =>
          match listing t.1 t.2 with
          | some names => addListing acc t.1 t.2 names
          | none => acc) m) n = none ↔
        findVals m n = none ∧ ts.filter (reportsB listing n) = []) := by
  intro ts
  induction ts with
  | nil => intro m; simp
  | cons t ts ih =>
    intro m
    rw [List.foldl_cons]
    cases hl : listing t.1 t.2 with
    | none =>
      have hr : reportsB listing n t = false := by simp [reportsB, hl]
      simp only [hl, ih, List.filter_cons, hr]
      simp
    | some names =>
      have hnd := hnod t.1 t.2 names hl
      by_cases hmem : n ∈ names
      · have hr : reportsB listing n t = true := by
          simp [reportsB, hl, List.elem_iff, hmem]
        simp only [hl, ih, List.filter_cons, hr, if_true]
        rw [findVals_addListing _ _ _ _ _ hnd, if_pos hmem]
        simp
      · have hr : reportsB listing n t = false := by
          simp [reportsB, hl, List.elem_iff, hmem]
        simp only [hl, ih, List.filter_cons, hr]
        rw [findVals_addListing _ _ _ _ _ hnd, if_neg hmem]
        simp

theorem keyNodup_addListing (repo env : String) :
    ∀ (names : List String) (m : List (String × List (String × String))),
      (keysOf m).Nodup → (keysOf (addListing m repo env names)).Nodup := by
  intro names
  induction names with
  | nil => intro m h; exact h
  | cons n names ih =>
    intro m h
    exact ih _ (keyNodup_upsertLoc n (repo, env) h)

theorem keyNodup_scanFold (listing : String → String → Option (List String)) :
    ∀ (ts : List (String × String)) (m : List (String × List (String × String))),
      (keysOf m).Nodup →
      (keysOf (ts.foldl (fun acc t =>
          match listing t.1 t.2 with
          | some names => addListing acc t.1 t.2 names
          | none => acc) m)).Nodup := by
  intro ts
  induction ts with
  | nil => intro m h; exact h
  | cons t ts ih =>
    intro m h
    rw [List.foldl_cons]
    cases hl : listing t.1 t.2 with
    | none => simpa [hl] using ih m h
    | some names => simpa [hl] using ih _ (keyNodup_addListing t.1 t.2 names m h)

theorem findVals_of_mem :
    ∀ {m : List (String × List (String × String))}, (keysOf m).Nodup →
      ∀ {n : String} {ls : List (String × String)}, (n, ls) ∈ m → findVals m n = some ls := by
  intro m
  induction m with
  | nil => intro _ n ls h; simp at h
  | cons p m ih =>
    intro hnd n ls h
    obtain ⟨k, ks⟩ := p
    have hnd2 : (keysOf m).Nodup := (List.nodup_cons.mp hnd).2
    rcases List.mem_cons.mp h with h1 | h1
    · obtain ⟨hk, hls⟩ := Prod.mk.injEq .. |>.mp h1.symm
      simp [findVals, hk, hls]
    · have hk : ¬ k = n := by
        intro hkn
        subst hkn
        have : k ∈ keysOf m := List.mem_map.mpr ⟨(k, ls), h1, rfl⟩
        exact (List.nodup_cons.mp hnd).1 this
      simp only [findVals, if_neg hk]
      exact ih hnd2 h1

theorem sep_split (c : Char) : ∀ (xs ys us vs : List Char), c ∉ xs → c ∉ ys →
    xs ++ c :: us = ys ++ c :: vs → xs = ys ∧ us = vs := by
  intro xs
  induction xs with
  | nil =>
    intro ys us vs _ hy h
    cases ys with
    | nil =>
      simp only [List.nil_append, List.cons.injEq] at h
      exact ⟨rfl, h.2⟩
    | cons y ys =>
      simp only [List.nil_append, List.cons_append, List.cons.injEq] at h
      exact absurd (List.mem_cons.mpr (Or.inl h.1)) hy
  | cons x xs ih =>
    intro ys us vs hx hy h
    cases ys with
    | nil =>
      simp only [List.cons_append, List.nil_append, List.cons.injEq] at h
      exact absurd (List.mem_cons.mpr (Or.inl h.1.symm)) hx
    | cons y ys =>
      simp only [List.cons_append, List.cons.injEq] at h
      obtain ⟨h1, h2⟩ := h
      have hx2 : c ∉ xs := fun hc => hx (List.mem_cons.mpr (Or.inr hc))
      have hy2 : c ∉ ys := fun hc => hy (List.mem_cons.mpr (Or.inr hc))
      obtain ⟨hxy, huv⟩ := ih ys us vs hx2 hy2 h2
      exact ⟨by rw [h1, hxy], huv⟩

theorem locKey_inj {r1 e1 r2 e2 : String} (h1 : ':' ∉ e1.data) (h2 : ':' ∉ e2.data)
    (h : locKey (r1, e1) = locKey (r2, e2)) : r1 = r2 ∧ e1 = e2 := by
  have hd : r1.data ++ ':' :: e1.data = r2.data ++ ':' :: e2.data := by
    have hdata := congrArg String.data h
    have e1d : (locKey (r1, e1)).data = (r1.data ++ [':']) ++ e1.data := rfl
    have e2d : (locKey (r2, e2)).data = (r2.data ++ [':']) ++ e2.data := rfl
    rw [e1d, e2d, List.append_assoc, List.append_assoc] at hdata
    simpa using hdata
  have hrev : e1.data.reverse ++ ':' :: r1.data.reverse =
      e2.data.reverse ++ ':' :: r2.data.reverse := by
    have hr := congrArg List.reverse hd
    simp only [List.reverse_append, List.reverse_cons, List.append_assoc,
      List.singleton_append] at hr
    exact hr
  have hsep := sep_split ':' _ _ _ _ (by simpa using h1) (by simpa using h2) hrev
  constructor
  · apply String.ext
    have := congrArg List.reverse hsep.2
    simpa using this
  · apply String.ext
    have := congrArg List.reverse hsep.1
    simpa using this

end GlobalSecretsList

namespace BulkOperations

theorem bulkCreateSecrets_some {n v : String} {repos envs : List String}
    {oracle : String → String → TargetBehavior} {rep : BulkReport}
    (h : bulkCreateSecrets n v repos envs oracle = some rep) :
    rep = runBulkAux (repos.length * envs.length)
      (fun r e => processSecretTarget n v r e (oracle r e)) 0 (targetList repos envs) := by
  unfold bulkCreateSecrets at h
  split at h
  · exact absurd h (by simp)
  · exact (Option.some_inj.mp h).symm

theorem bulkCreateVariables_some {n v : String} {repos envs : List String}
    {oracle : String → String → TargetBehavior} {rep : BulkReport}
    (h : bulkCreateVariables n v repos envs oracle = some rep) :
    rep = runBulkAux (repos.length * envs.length)
      (fun r e => processVariableTarget n v r e (oracle r e)) 0 (targetList repos envs) := by
  unfold bulkCreateVariables at h
  split at h
  · exact absurd h (by simp)
  · exact (Option.some_inj.mp h).symm

theorem bulkCreateSecrets_some_valid {n v : String} {repos envs : List String}
    {oracle : String → String → TargetBehavior} {rep : BulkReport}
    (h : bulkCreateSecrets n v repos envs oracle = some rep) :
    blank n = false ∧ blank v = false ∧ repos ≠ [] ∧ envs ≠ [] := by
  unfold bulkCreateSecrets at h
  split at h
  · exact absurd h (by simp)
  · rename_i hcond
    simp only [not_or] at hcond
    exact ⟨by simpa using hcond.1, by simpa using hcond.2.1, hcond.2.2.1, hcond.2.2.2⟩

theorem bulk_results_pairs {n v : String} {repos envs : List String}
    {oracle : String → String → TargetBehavior} :
    (runBulkAux (repos.length * envs.length)
        (fun r e => processSecretTarget n v r e (oracle r e)) 0
        (targetList repos envs)).results.map (fun res => (res.repo, res.environment)) =
      targetList repos envs := by
  rw [runBulkAux_results, List.map_map]
  have h := List.map_congr_left (l := targetList repos envs)
    (f := (fun res => (res.repo, res.environment)) ∘
      (fun t => (processSecretTarget n v t.1 t.2 (oracle t.1 t.2)).1))
    (g := id) ?_
  · simpa using h
  · intro t _
    have hp := processSecretTarget_pair n v t.1 t.2 (oracle t.1 t.2)
    simp only [Function.comp_apply, id_eq, hp.1, hp.2]

theorem bulk_results_pairs_var {n v : String} {repos envs : List String}
    {oracle : String → String → TargetBehavior} :
    (runBulkAux (repos.length * envs.length)
        (fun r e => processVariableTarget n v r e (oracle r e)) 0
        (targetList repos envs)).results.map (fun res => (res.repo, res.environment)) =
      targetList repos envs := by
  rw [runBulkAux_results, List.map_map]
  have h := List.map_congr_left (l := targetList repos envs)
    (f := (fun res => (res.repo, res.environment)) ∘
      (fun t => (processVariableTarget n v t.1 t.2 (oracle t.1 t.2)).1))
    (g := id) ?_
  · simpa using h
  · intro t _
    have hp := processVariableTarget_pair n v t.1 t.2 (oracle t.1 t.2)
    simp only [Function.comp_apply, id_eq, hp.1, hp.2]

end BulkOperations

/-- Oracle on which every call succeeds: environment GET 200, environment
create PUT 201, write 204. -/
def oracleAllOk : String → String → TargetBehavior :=
  fun _ _ => ⟨FetchOutcome.resp 200, FetchOutcome.resp 201, FetchOutcome.resp 204⟩

/-- Oracle on which the environment of target (api, staging) cannot be
created (GET 404, then PUT 422) while every other call succeeds. -/
def oracleEnvFail : String → String → TargetBehavior :=
  fun r e =>
    if r = "api" && e = "staging" then
      ⟨FetchOutcome.resp 404, FetchOutcome.resp 422, FetchOutcome.resp 204⟩
    else ⟨FetchOutcome.resp 200, FetchOutcome.resp 201, FetchOutcome.resp 204⟩

/-- C1: for every non-empty, duplicate-free selection of repositories and
environments, a bulk secret run and a bulk variable run each produce exactly
one OperationResult per (repo, env) pair, in a sequence whose (repo, env)
projections are exactly the Cartesian product, which has no duplicates and
contains precisely the pairs of R × E — for every oracle, however many
targets fail. -/
theorem c1_bulk_covers_product (sn sv vn vv : String) (repos envs : List String)
    (oracle : String → String → TargetBehavior) (hr : repos.Nodup) (he : envs.Nodup)
    (repS repV : BulkReport)
    (hS : BulkOperations.bulkCreateSecrets sn sv repos envs oracle = some repS)
    (hV : BulkOperations.bulkCreateVariables vn vv repos envs oracle = some repV) :
    (repS.results.map (fun res => (res.repo, res.environment)) = targetList repos envs ∧
      repS.results.length = repos.length * envs.length) ∧
    (repV.results.map (fun res => (res.repo, res.environment)) = targetList repos envs ∧
      repV.results.length = repos.length * envs.length) ∧
    (targetList repos envs).Nodup ∧
    (∀ t : String × String, t ∈ targetList repos envs ↔ t.1 ∈ repos ∧ t.2 ∈ envs) := by
  rw [BulkOperations.bulkCreateSecrets_some hS, BulkOperations.bulkCreateVariables_some hV]
  refine ⟨⟨BulkOperations.bulk_results_pairs, ?_⟩, ⟨BulkOperations.bulk_results_pairs_var, ?_⟩,
    nodup_targetList hr he, fun t => mem_targetList⟩
  · rw [BulkOperations.runBulkAux_results, List.length_map, length_targetList]
  · rw [BulkOperations.runBulkAux_results, List.length_map, length_targetList]

theorem c1_witness : ∃ repS repV,
    BulkOperations.bulkCreateSecrets "TOKEN" "v1" ["api", "web"] ["production", "staging"]
      oracleAllOk = some repS ∧
    BulkOperations.bulkCreateVariables "FLAG" "v2" ["api", "web"] ["production", "staging"]
      oracleAllOk = some repV ∧
    repS.results.length = 4 ∧
    repS.results.map (fun res => (res.repo, res.environment)) =
      [("api", "production"), ("api", "staging"), ("web", "production"), ("web", "staging")] := by
  refine ⟨_, _, rfl, rfl, ?_, ?_⟩
  · exact (c1_bulk_covers_product "TOKEN" "v1" "FLAG" "v2" ["api", "web"]
      ["production", "staging"] oracleAllOk (by decide) (by decide) _ _ rfl rfl).1.2
  · exact (c1_bulk_covers_product "TOKEN" "v1" "FLAG" "v2" ["api", "web"]
      ["production", "staging"] oracleAllOk (by decide) (by decide) _ _ rfl rfl).1.1

/-- C2: createEnvironmentIfNeeded returns true on a 2xx existence GET
(without issuing a create); on a 404 GET it issues exactly one create PUT
(its request trace is exactly the GET followed by the PUT) and returns true
if and only if the create receives an ok response; on any other received
status, or on a transport error, it returns false without issuing a
create. -/
theorem c2_ensure_environment (repo env : String) (b : TargetBehavior) :
    (∀ s, b.envGet = FetchOutcome.resp s → statusOk s = true →
      (BulkOperations.createEnvironmentIfNeeded repo env b).1 = true ∧
        (BulkOperations.createEnvironmentIfNeeded repo env b).2 =
          [Request.envCheck repo env]) ∧
    (b.envGet = FetchOutcome.resp 404 →
      (BulkOperations.createEnvironmentIfNeeded repo env b).2 =
        [Request.envCheck repo env, Request.envCreate repo env] ∧
      ((BulkOperations.createEnvironmentIfNeeded repo env b).1 = true ↔
        ∃ s2, b.envPut = FetchOutcome.resp s2 ∧ statusOk s2 = true)) ∧
    (∀ s, b.envGet = FetchOutcome.resp s → statusOk s = false → s ≠ 404 →
      (BulkOperations.createEnvironmentIfNeeded repo env b).1 = false ∧
        (BulkOperations.createEnvironmentIfNeeded repo env b).2 =
          [Request.envCheck repo env]) ∧
    (∀ m, b.envGet = FetchOutcome.err m →
      (BulkOperations.createEnvironmentIfNeeded repo env b).1 = false ∧
        (BulkOperations.createEnvironmentIfNeeded repo env b).2 =
          [Request.envCheck repo env]) := by
  obtain ⟨eg, ep, w⟩ := b
  refine ⟨?_, ?_, ?_, ?_⟩
  · intro s hs hok
    have h404 : ¬ s = 404 := by
      intro hcon
      subst hcon
      simp [statusOk] at hok
    cases hs
    unfold BulkOperations.createEnvironmentIfNeeded
    simp [if_neg h404, hok]
  · intro hs
    cases hs
    unfold BulkOperations.createEnvironmentIfNeeded
    cases ep with
    | resp s2 => simp
    | err m => simp
  · intro s hs hnot h404
    cases hs
    unfold BulkOperations.createEnvironmentIfNeeded
    simp [if_neg h404, hnot]
  · intro m hm
    cases hm
    unfold BulkOperations.createEnvironmentIfNeeded
    simp

theorem c2_witness :
    ((BulkOperations.createEnvironmentIfNeeded "api" "staging"
        ⟨FetchOutcome.resp 200, FetchOutcome.resp 201, FetchOutcome.resp 204⟩).1 = true ∧
      (BulkOperations.createEnvironmentIfNeeded "api" "staging"
        ⟨FetchOutcome.resp 200, FetchOutcome.resp 201, FetchOutcome.resp 204⟩).2 =
        [Request.envCheck "api" "staging"]) ∧
    ((BulkOperations.createEnvironmentIfNeeded "api" "staging"
        ⟨FetchOutcome.resp 404, FetchOutcome.resp 201, FetchOutcome.resp 204⟩).2 =
      [Request.envCheck "api" "staging", Request.envCreate "api" "staging"]) ∧
    ((BulkOperations.createEnvironmentIfNeeded "api" "staging"
        ⟨FetchOutcome.resp 500, FetchOutcome.resp 201, FetchOutcome.resp 204⟩).1 = false) ∧
    ((BulkOperations.createEnvironmentIfNeeded "api" "staging"
        ⟨FetchOutcome.err "network down", FetchOutcome.resp 201,
          FetchOutcome.resp 204⟩).1 = false) := by
  refine ⟨?_, ?_, ?_, ?_⟩
  · exact (c2_ensure_environment "api" "staging" _).1 200 rfl (by decide)
  · exact ((c2_ensure_environment "api" "staging" _).2.1 rfl).1
  · exact ((c2_ensure_environment "api" "staging" _).2.2.1 500 rfl (by decide) (by decide)).1
  · exact ((c2_ensure_environment "api" "staging" _).2.2.2 "network down" rfl).1

theorem index_bound {i j lr le : Nat} (hi : i < lr) (hj : j < le) : i * le + j < lr * le := by
  calc i * le + j < (i + 1) * le := by rw [Nat.succ_mul]; omega
    _ ≤ lr * le := Nat.mul_le_mul_right _ (by omega)

/-- C3: in a bulk run, a target whose environment ensure step fails gets no
write request (no secret PUT, respectively no variable POST, tagged with its
repository and environment appears in the request trace), its recorded
result is the fixed failure record with error "Failed to create/access
environment", and processing still covers all |R|×|E| targets. -/
theorem c3_env_fail_no_write (sn sv vn vv : String) (repos envs : List String)
    (oracle : String → String → TargetBehavior) (r e : String)
    (repS repV : BulkReport)
    (hS : BulkOperations.bulkCreateSecrets sn sv repos envs oracle = some repS)
    (hV : BulkOperations.bulkCreateVariables vn vv repos envs oracle = some repV)
    (hfail : (BulkOperations.createEnvironmentIfNeeded r e (oracle r e)).1 = false) :
    (∀ nm body, Request.secretPut r e nm body ∉ repS.trace) ∧
    (∀ res ∈ repS.results, res.repo = r → res.environment = e →
      res = ⟨r, e, false, some "Failed to create/access environment"⟩) ∧
    repS.results.length = repos.length * envs.length ∧
    (∀ nm val, Request.varPost r e nm val ∉ repV.trace) ∧
    (∀ res ∈ repV.results, res.repo = r → res.environment = e →
      res = ⟨r, e, false, some "Failed to create/access environment"⟩) ∧
    repV.results.length = repos.length * envs.length := by
  have hrepS := BulkOperations.bulkCreateSecrets_some hS
  have hrepV := BulkOperations.bulkCreateVariables_some hV
  subst hrepS
  subst hrepV
  refine ⟨?_, ?_, ?_, ?_, ?_, ?_⟩
  · intro nm body hmem
    rw [BulkOperations.runBulkAux_trace_mem] at hmem
    obtain ⟨t, ht, hreq⟩ := hmem
    rcases BulkOperations.processSecretTarget_trace sn sv t.1 t.2 (oracle t.1 t.2) _ hreq
      with h3 | h3 | h3
    · exact Request.noConfusion h3
    · exact Request.noConfusion h3
    · simp only [Request.secretPut.injEq] at h3
      obtain ⟨h4, h5, -, -⟩ := h3
      rw [← h4, ← h5] at hreq
      rw [BulkOperations.processSecretTarget_env_fail sn sv r e _ hfail] at hreq
      rcases BulkOperations.createEnvironmentIfNeeded_trace r e (oracle r e) _ hreq
        with h6 | h6 <;> exact Request.noConfusion h6
  · intro res hres hrr hre
    rw [BulkOperations.runBulkAux_results] at hres
    obtain ⟨t, ht, heq⟩ := List.mem_map.mp hres
    have hp := BulkOperations.processSecretTarget_pair sn sv t.1 t.2 (oracle t.1 t.2)
    rw [← heq] at hrr hre
    rw [hp.1] at hrr
    rw [hp.2] at hre
    rw [← heq, hrr, hre,
      BulkOperations.processSecretTarget_env_fail sn sv r e _ hfail]
  · rw [BulkOperations.runBulkAux_results, List.length_map, length_targetList]
  · intro nm val hmem
    rw [BulkOperations.runBulkAux_trace_mem] at hmem
    obtain ⟨t, ht, hreq⟩ := hmem
    rcases BulkOperations.processVariableTarget_trace vn vv t.1 t.2 (oracle t.1 t.2) _ hreq
      with h3 | h3 | h3
    · exact Request.noConfusion h3
    · exact Request.noConfusion h3
    · simp only [Request.varPost.injEq] at h3
      obtain ⟨h4, h5, -, -⟩ := h3
      rw [← h4, ← h5] at hreq
      rw [BulkOperations.processVariableTarget_env_fail vn vv r e _ hfail] at hreq
      rcases BulkOperations.createEnvironmentIfNeeded_trace r e (oracle r e) _ hreq
        with h6 | h6 <;> exact Request.noConfusion h6
  · intro res hres hrr hre
    rw [BulkOperations.runBulkAux_results] at hres
    obtain ⟨t, ht, heq⟩ := List.mem_map.mp hres
    have hp := BulkOperations.processVariableTarget_pair vn vv t.1 t.2 (oracle t.1 t.2)
    rw [← heq] at hrr hre
    rw [hp.1] at hrr
    rw [hp.2] at hre
    rw [← heq, hrr, hre,
      BulkOperations.processVariableTarget_env_fail vn vv r e _ hfail]
  · rw [BulkOperations.runBulkAux_results, List.length_map, length_targetList]

theorem c3_witness : ∃ repS repV,
    BulkOperations.bulkCreateSecrets "TOKEN" "v1" ["api", "web"] ["production", "staging"]
      oracleEnvFail = some repS ∧
    BulkOperations.bulkCreateVariables "FLAG" "v2" ["api", "web"] ["production", "staging"]
      oracleEnvFail = some repV ∧
    (∀ nm body, Request.secretPut "api" "staging" nm body ∉ repS.trace) ∧
    repS.results.length = 4 := by
  refine ⟨_, _, rfl, rfl, ?_, ?_⟩
  · exact (c3_env_fail_no_write "TOKEN" "v1" "FLAG" "v2" ["api", "web"]
      ["production", "staging"] oracleEnvFail "api" "staging" _ _ rfl rfl (by decide)).1
  · exact (c3_env_fail_no_write "TOKEN" "v1" "FLAG" "v2" ["api", "web"]
      ["production", "staging"] oracleEnvFail "api" "staging" _ _ rfl rfl (by decide)).2.2.1

namespace BulkOperations

theorem processSecretTarget_write_err (n v r e : String) (b : TargetBehavior)
    (henv : (createEnvironmentIfNeeded r e b).1 = true) (m : String)
    (hw : b.write = FetchOutcome.err m) :
    (processSecretTarget n v r e b).1 = ⟨r, e, false, some m⟩ := by
  unfold processSecretTarget
  rw [if_pos henv, hw]

end BulkOperations

/-- Oracle on which every write fails with a transport error. -/
def oracleNetErr : String → String → TargetBehavior :=
  fun _ _ => ⟨FetchOutcome.resp 200, FetchOutcome.resp 201, FetchOutcome.err "Failed to fetch"⟩

/-- C5: a bulk run never aborts: for every oracle (any mix of per-target
outcomes, including transport errors thrown by fetch), there is one result
per target of the full Cartesian product, a thrown write error is captured
as that target's result data (its message in the error field) instead of
propagating, and the aggregate success count out of the total is always
well-formed (bounded by the total), even when every target fails. -/
theorem c5_runs_to_completion (sn sv : String) (repos envs : List String)
    (oracle : String → String → TargetBehavior) (rep : BulkReport)
    (hS : BulkOperations.bulkCreateSecrets sn sv repos envs oracle = some rep) :
    rep.results.length = repos.length * envs.length ∧
    rep.results.map (fun res => (res.repo, res.environment)) = targetList repos envs ∧
    (∀ r e m, (r, e) ∈ targetList repos envs →
      (BulkOperations.createEnvironmentIfNeeded r e (oracle r e)).1 = true →
      (oracle r e).write = FetchOutcome.err m →
      (⟨r, e, false, some m⟩ : OperationResult) ∈ rep.results) ∧
    BulkOperations.successCount rep ≤ repos.length * envs.length := by
  have hrep := BulkOperations.bulkCreateSecrets_some hS
  subst hrep
  refine ⟨?_, BulkOperations.bulk_results_pairs, ?_, ?_⟩
  · rw [BulkOperations.runBulkAux_results, List.length_map, length_targetList]
  · intro r e m hmem henv hw
    rw [BulkOperations.runBulkAux_results]
    have h1 : (BulkOperations.processSecretTarget sn sv r e (oracle r e)).1 ∈
        List.map (fun t => (BulkOperations.processSecretTarget sn sv t.1 t.2 (oracle t.1 t.2)).1)
          (targetList repos envs) := List.mem_map_of_mem _ hmem
    rwa [BulkOperations.processSecretTarget_write_err sn sv r e _ henv m hw] at h1
  · unfold BulkOperations.successCount
    calc ((BulkOperations.runBulkAux _ _ 0 (targetList repos envs)).results.filter
          (fun res => res.success)).length ≤
        (BulkOperations.runBulkAux _ _ 0 (targetList repos envs)).results.length :=
          List.length_filter_le _ _
      _ = repos.length * envs.length := by
          rw [BulkOperations.runBulkAux_results, List.length_map, length_targetList]

theorem c5_witness : ∃ rep,
    BulkOperations.bulkCreateSecrets "TOKEN" "v1" ["api"] ["production"] oracleNetErr =
      some rep ∧
    rep.results.length = 1 ∧
    (⟨"api", "production", false, some "Failed to fetch"⟩ : OperationResult) ∈ rep.results := by
  refine ⟨_, rfl, ?_, ?_⟩
  · exact (c5_runs_to_completion "TOKEN" "v1" ["api"] ["production"] oracleNetErr _ rfl).1
  · exact (c5_runs_to_completion "TOKEN" "v1" ["api"] ["production"] oracleNetErr _ rfl).2.2.1
      "api" "production" "Failed to fetch" (by decide) (by decide) rfl

/-- C6: results are recorded in the stable nested-loop order: the result at
index i·|E|+j belongs to the pair (R[i], E[j]), in both the bulk secret run
and the bulk variable run. -/
theorem c6_result_order (sn sv vn vv : String) (repos envs : List String)
    (oracle : String → String → TargetBehavior) (repS repV : BulkReport)
    (hS : BulkOperations.bulkCreateSecrets sn sv repos envs oracle = some repS)
    (hV : BulkOperations.bulkCreateVariables vn vv repos envs oracle = some repV)
    (i j : Nat) (hi : i < repos.length) (hj : j < envs.length)
    (hkS : i * envs.length + j < repS.results.length)
    (hkV : i * envs.length + j < repV.results.length) :
    ((repS.results.get ⟨i * envs.length + j, hkS⟩).repo = repos.get ⟨i, hi⟩ ∧
      (repS.results.get ⟨i * envs.length + j, hkS⟩).environment = envs.get ⟨j, hj⟩) ∧
    ((repV.results.get ⟨i * envs.length + j, hkV⟩).repo = repos.get ⟨i, hi⟩ ∧
      (repV.results.get ⟨i * envs.length + j, hkV⟩).environment = envs.get ⟨j, hj⟩) := by
  have hrepS := BulkOperations.bulkCreateSecrets_some hS
  have hrepV := BulkOperations.bulkCreateVariables_some hV
  subst hrepS
  subst hrepV
  have hkt : i * envs.length + j < (targetList repos envs).length := by
    rw [length_targetList]
    exact index_bound hi hj
  have ht := targetList_get repos envs i j hi hj hkt
  simp only [List.get_eq_getElem] at ht
  constructor
  · simp only [List.get_eq_getElem, BulkOperations.runBulkAux_results, List.getElem_map, ht]
    exact ⟨(BulkOperations.processSecretTarget_pair sn sv _ _ _).1,
      (BulkOperations.processSecretTarget_pair sn sv _ _ _).2⟩
  · simp only [List.get_eq_getElem, BulkOperations.runBulkAux_results, List.getElem_map, ht]
    exact ⟨(BulkOperations.processVariableTarget_pair vn vv _ _ _).1,
      (BulkOperations.processVariableTarget_pair vn vv _ _ _).2⟩

theorem c6_witness :
    ∃ repS repV, ∃ hkS : 1 * 2 + 1 < repS.results.length,
      ∃ hkV : 1 * 2 + 1 < repV.results.length,
      BulkOperations.bulkCreateSecrets "TOKEN" "v1" ["api", "web"]
        ["production", "staging"] oracleAllOk = some repS ∧
      BulkOperations.bulkCreateVariables "FLAG" "v2" ["api", "web"]
        ["production", "staging"] oracleAllOk = some repV ∧
      (repS.results.get ⟨1 * 2 + 1, hkS⟩).repo = "web" ∧
      (repS.results.get ⟨1 * 2 + 1, hkS⟩).environment = "staging" ∧
      (repV.results.get ⟨1 * 2 + 1, hkV⟩).repo = "web" ∧
      (repV.results.get ⟨1 * 2 + 1, hkV⟩).environment = "staging" := by
  refine ⟨_, _, by decide, by decide, rfl, rfl, ?_, ?_, ?_, ?_⟩
  · exact (c6_result_order "TOKEN" "v1" "FLAG" "v2" ["api", "web"] ["production", "staging"]
      oracleAllOk _ _ rfl rfl 1 1 (by decide) (by decide) (by decide) (by decide)).1.1
  · exact (c6_result_order "TOKEN" "v1" "FLAG" "v2" ["api", "web"] ["production", "staging"]
      oracleAllOk _ _ rfl rfl 1 1 (by decide) (by decide) (by decide) (by decide)).1.2
  · exact (c6_result_order "TOKEN" "v1" "FLAG" "v2" ["api", "web"] ["production", "staging"]
      oracleAllOk _ _ rfl rfl 1 1 (by decide) (by decide) (by decide) (by decide)).2.1
  · exact (c6_result_order "TOKEN" "v1" "FLAG" "v2" ["api", "web"] ["production", "staging"]
      oracleAllOk _ _ rfl rfl 1 1 (by decide) (by decide) (by decide) (by decide)).2.2

/-- C7: the progress value emitted after the k-th completed target (0-based)
is ((k+1) / total) · 100; the emitted sequence has one entry per target, is
monotonically non-decreasing, and an entry equals 100 exactly when it is the
one emitted after the last target. -/
theorem c7_progress_monotone (sn sv : String) (repos envs : List String)
    (oracle : String → String → TargetBehavior) (rep : BulkReport)
    (hS : BulkOperations.bulkCreateSecrets sn sv repos envs oracle = some rep) :
    rep.progressEvents.length = repos.length * envs.length ∧
    (∀ k (hk : k < rep.progressEvents.length),
      rep.progressEvents.get ⟨k, hk⟩ =
        (((k + 1 : Nat) : ℚ) / ((repos.length * envs.length : Nat) : ℚ)) * 100) ∧
    (∀ i j (hi : i < rep.progressEvents.length) (hj : j < rep.progressEvents.length),
      i ≤ j → rep.progressEvents.get ⟨i, hi⟩ ≤ rep.progressEvents.get ⟨j, hj⟩) ∧
    (∀ k (hk : k < rep.progressEvents.length),
      (rep.progressEvents.get ⟨k, hk⟩ = 100 ↔ k + 1 = repos.length * envs.length)) := by
  have hval := BulkOperations.bulkCreateSecrets_some_valid hS
  have hT : 0 < repos.length * envs.length := by
    have h1 : 0 < repos.length := List.length_pos.mpr hval.2.2.1
    have h2 : 0 < envs.length := List.length_pos.mpr hval.2.2.2
    exact Nat.mul_pos h1 h2
  have hTQ : (0 : ℚ) < ((repos.length * envs.length : Nat) : ℚ) := by
    exact_mod_cast hT
  have hTne : ((repos.length * envs.length : Nat) : ℚ) ≠ 0 := ne_of_gt hTQ
  have hrep := BulkOperations.bulkCreateSecrets_some hS
  subst hrep
  have hlen : (BulkOperations.runBulkAux (repos.length * envs.length)
      (fun r e => BulkOperations.processSecretTarget sn sv r e (oracle r e)) 0
      (targetList repos envs)).progressEvents.length = repos.length * envs.length := by
    rw [BulkOperations.runBulkAux_progress, List.length_map, List.length_range,
      length_targetList]
  have hget : ∀ k (hk : k < (BulkOperations.runBulkAux (repos.length * envs.length)
      (fun r e => BulkOperations.processSecretTarget sn sv r e (oracle r e)) 0
      (targetList repos envs)).progressEvents.length),
      (BulkOperations.runBulkAux (repos.length * envs.length)
        (fun r e => BulkOperations.processSecretTarget sn sv r e (oracle r e)) 0
        (targetList repos envs)).progressEvents.get ⟨k, hk⟩ =
        (((k + 1 : Nat) : ℚ) / ((repos.length * envs.length : Nat) : ℚ)) * 100 := by
    intro k hk
    simp only [List.get_eq_getElem, BulkOperations.runBulkAux_progress, List.getElem_map,
      List.getElem_range]
    norm_num
  refine ⟨hlen, hget, ?_, ?_⟩
  · intro i j hi hj hij
    rw [hget i hi, hget j hj]
    have hle : ((i + 1 : Nat) : ℚ) ≤ ((j + 1 : Nat) : ℚ) := by
      exact_mod_cast Nat.succ_le_succ hij
    have hdiv := (div_le_div_iff_of_pos_right hTQ).mpr hle
    exact mul_le_mul_of_nonneg_right hdiv (by norm_num)
  · intro k hk
    rw [hget k hk]
    constructor
    · intro h100
      have h2 : ((k + 1 : Nat) : ℚ) / ((repos.length * envs.length : Nat) : ℚ) * 100 =
          1 * 100 := by rw [h100]; norm_num
      have h1 : ((k + 1 : Nat) : ℚ) / ((repos.length * envs.length : Nat) : ℚ) = 1 :=
        mul_right_cancel₀ (by norm_num) h2
      rw [div_eq_one_iff_eq hTne] at h1
      exact_mod_cast h1
    · intro hkT
      rw [show ((k + 1 : Nat) : ℚ) = ((repos.length * envs.length : Nat) : ℚ) by
        exact_mod_cast hkT]
      rw [div_self hTne]
      norm_num

theorem c7_witness : ∃ rep, ∃ hk : 1 < rep.progressEvents.length,
    BulkOperations.bulkCreateSecrets "TOKEN" "v1" ["api"] ["production", "staging"]
      oracleAllOk = some rep ∧
    rep.progressEvents.length = 2 ∧
    (rep.progressEvents.get ⟨1, hk⟩ = 100 ↔ 1 + 1 = 2) := by
  refine ⟨_, by decide, rfl, ?_, ?_⟩
  · exact (c7_progress_monotone "TOKEN" "v1" ["api"] ["production", "staging"]
      oracleAllOk _ rfl).1
  · exact (c7_progress_monotone "TOKEN" "v1" ["api"] ["production", "staging"]
      oracleAllOk _ rfl).2.2.2 1 (by decide)

namespace EnvironmentManager

theorem createSecret_some {n v repo env : String} {bm : Bool} {selR selE : List String}
    {oracle : String → String → TargetBehavior} {p : Except String (Nat × Nat) × List Request}
    (h : createSecret n v repo env bm selR selE oracle = some p) :
    p = ((runWrites (fun r e => Request.secretPut r e n (btoa v)) oracle
          (targetList (if bm then selR else [repo]) (if bm then selE else [env]))).1.map
        (fun c => (c, (if bm then selR else [repo]).length *
          (if bm then selE else [env]).length)),
      (runWrites (fun r e => Request.secretPut r e n (btoa v)) oracle
        (targetList (if bm then selR else [repo]) (if bm then selE else [env]))).2 ++
        (match (runWrites (fun r e => Request.secretPut r e n (btoa v)) oracle
            (targetList (if bm then selR else [repo]) (if bm then selE else [env]))).1 with
          | Except.ok _ => [Request.secretsList repo env]
          | Except.error _ => [])) := by
  unfold createSecret at h
  split at h
  · exact absurd h (by simp)
  · exact (Option.some_inj.mp h).symm

theorem createVariable_some {n v repo env : String} {bm : Bool} {selR selE : List String}
    {oracle : String → String → TargetBehavior} {p : Except String (Nat × Nat) × List Request}
    (h : createVariable n v repo env bm selR selE oracle = some p) :
    p = ((runWrites (fun r e => Request.varPost r e n v) oracle
          (targetList (if bm then selR else [repo]) (if bm then selE else [env]))).1.map
        (fun c => (c, (if bm then selR else [repo]).length *
          (if bm then selE else [env]).length)),
      (runWrites (fun r e => Request.varPost r e n v) oracle
        (targetList (if bm then selR else [repo]) (if bm then selE else [env]))).2 ++
        (match (runWrites (fun r e => Request.varPost r e n v) oracle
            (targetList (if bm then selR else [repo]) (if bm then selE else [env]))).1 with
          | Except.ok _ => [Request.variablesList repo env]
          | Except.error _ => [])) := by
  unfold createVariable at h
  split at h
  · exact absurd h (by simp)
  · exact (Option.some_inj.mp h).symm

theorem createSecret_env_independent (n v repo env : String) (bm : Bool)
    (selR selE : List String) (o1 o2 : String → String → TargetBehavior)
    (hw : ∀ r e, (o1 r e).write = (o2 r e).write) :
    createSecret n v repo env bm selR selE o1 = createSecret n v repo env bm selR selE o2 := by
  unfold createSecret
  simp only [runWrites_env_independent (fun r e => Request.secretPut r e n (btoa v))
    o1 o2 hw]

theorem createVariable_env_independent (n v repo env : String) (bm : Bool)
    (selR selE : List String) (o1 o2 : String → String → TargetBehavior)
    (hw : ∀ r e, (o1 r e).write = (o2 r e).write) :
    createVariable n v repo env bm selR selE o1 =
      createVariable n v repo env bm selR selE o2 := by
  unfold createVariable
  simp only [runWrites_env_independent (fun r e => Request.varPost r e n v) o1 o2 hw]

end EnvironmentManager

/-- C8: every secret PUT issued by a bulk secret run (and by the
environment manager's createSecret) carries, as its encrypted_value body,
exactly btoa of the entered value — plain base64 — and this encoding is
reversible: decoding recovers the value (for values within the latin-1
domain btoa is defined on), so it provides no confidentiality. -/
theorem c8_secret_value_base64 (sn sv : String) (repos envs : List String)
    (oracle : String → String → TargetBehavior) (rep : BulkReport)
    (hS : BulkOperations.bulkCreateSecrets sn sv repos envs oracle = some rep) :
    (∀ r e nm body, Request.secretPut r e nm body ∈ rep.trace → body = btoa sv) ∧
    (∀ (repo env : String) (bm : Bool) (selR selE : List String)
      (p : Except String (Nat × Nat) × List Request),
      EnvironmentManager.createSecret sn sv repo env bm selR selE oracle = some p →
      ∀ r e nm body, Request.secretPut r e nm body ∈ p.2 → body = btoa sv) ∧
    ((∀ c ∈ sv.data, c.toNat < 256) → atob (btoa sv) = sv) := by
  have hrep := BulkOperations.bulkCreateSecrets_some hS
  subst hrep
  refine ⟨?_, ?_, atob_btoa sv⟩
  · intro r e nm body hmem
    rw [BulkOperations.runBulkAux_trace_mem] at hmem
    obtain ⟨t, ht, hreq⟩ := hmem
    rcases BulkOperations.processSecretTarget_trace sn sv t.1 t.2 (oracle t.1 t.2) _ hreq
      with h3 | h3 | h3
    · exact Request.noConfusion h3
    · exact Request.noConfusion h3
    · simp only [Request.secretPut.injEq] at h3
      exact h3.2.2.2
  · intro repo env bm selR selE p hp r e nm body hmem
    rw [EnvironmentManager.createSecret_some hp] at hmem
    rcases List.mem_append.mp hmem with hmem2 | hmem2
    · obtain ⟨t, ht, hreq⟩ := EnvironmentManager.runWrites_trace_shape _ oracle _ _ hmem2
      simp only [Request.secretPut.injEq] at hreq
      exact hreq.2.2.2
    · split at hmem2
      · simp at hmem2
      · simp at hmem2

theorem c8_witness : ∃ rep,
    BulkOperations.bulkCreateSecrets "TOKEN" "hunter2" ["api"] ["production"] oracleAllOk =
      some rep ∧
    atob (btoa "hunter2") = "hunter2" ∧
    (∀ r e nm body, Request.secretPut r e nm body ∈ rep.trace → body = btoa "hunter2") := by
  refine ⟨_, rfl, ?_, ?_⟩
  · exact (c8_secret_value_base64 "TOKEN" "hunter2" ["api"] ["production"]
      oracleAllOk _ rfl).2.2 (by decide)
  · exact (c8_secret_value_base64 "TOKEN" "hunter2" ["api"] ["production"]
      oracleAllOk _ rfl).1

/-- C9: a bulk secret or variable creation whose name or value is empty or
whitespace-only, or whose repository or environment selection is empty, is
rejected synchronously: the run returns no report, and this holds for every
oracle, so no network call can influence or be caused by it. -/
theorem c9_validation_short_circuit (n v : String) (repos envs : List String)
    (h : blank n = true ∨ blank v = true ∨ repos = [] ∨ envs = []) :
    ∀ oracle : String → String → TargetBehavior,
      BulkOperations.bulkCreateSecrets n v repos envs oracle = none ∧
      BulkOperations.bulkCreateVariables n v repos envs oracle = none := by
  intro oracle
  constructor
  · unfold BulkOperations.bulkCreateSecrets
    rw [if_pos h]
  · unfold BulkOperations.bulkCreateVariables
    rw [if_pos h]

theorem c9_witness :
    BulkOperations.bulkCreateSecrets " " "v" ["api"] ["production"] oracleAllOk = none ∧
    BulkOperations.bulkCreateVariables " " "v" ["api"] ["production"] oracleAllOk = none :=
  c9_validation_short_circuit " " "v" ["api"] ["production"] (Or.inl (by decide)) oracleAllOk

/-- C10 counterexample: the claim that the only requests issued by the
environment manager's createSecret are the per-target secret PUT writes is
false of the code: on a fully successful single-target invocation, the
success path's fetchSecrets refresh issues a secrets-listing GET, which is
not a secret PUT. -/
theorem c10_refresh_get_counterexample :
    ¬ (∀ p : Except String (Nat × Nat) × List Request,
      EnvironmentManager.createSecret "TOKEN" "v1" "api" "production" false ["x"] ["y"]
        oracleAllOk = some p →
      ∀ req ∈ p.2, ∃ r e body, req = Request.secretPut r e "TOKEN" body) := by
  intro h
  obtain ⟨r, e, body, heq⟩ := h _ rfl (Request.secretsList "api" "production") (by decide)
  exact Request.noConfusion heq

/-- C10 (amended): the environment manager's createSecret and
createVariable, in both single-target and bulk mode, issue only their
per-target write requests plus — exactly when the write loop completes
without a transport error — one refresh GET of the current dialog's secrets
(respectively variables) listing; no environment existence GET or
environment-create PUT is ever issued, so the operation's behaviour is
independent of the environment-endpoint outcomes (the remote environment
set is untouched); when every write receives a response, the outcome is
only the aggregate (successCount, totalCount) pair, with no per-target
records. -/
theorem c10_environment_manager_frame (sn sv vn vv repo env : String) (bm : Bool)
    (selR selE : List String) (oracle : String → String → TargetBehavior)
    (pS pV : Except String (Nat × Nat) × List Request)
    (hS : EnvironmentManager.createSecret sn sv repo env bm selR selE oracle = some pS)
    (hV : EnvironmentManager.createVariable vn vv repo env bm selR selE oracle = some pV) :
    (∀ req ∈ pS.2, (∃ r e body, req = Request.secretPut r e sn body) ∨
      req = Request.secretsList repo env) ∧
    (Request.secretsList repo env ∈ pS.2 ↔ ∃ c, pS.1 = Except.ok c) ∧
    (∀ req ∈ pV.2, (∃ r e val, req = Request.varPost r e vn val) ∨
      req = Request.variablesList repo env) ∧
    (Request.variablesList repo env ∈ pV.2 ↔ ∃ c, pV.1 = Except.ok c) ∧
    (∀ r e, Request.envCheck r e ∉ pS.2 ∧ Request.envCreate r e ∉ pS.2) ∧
    (∀ r e, Request.envCheck r e ∉ pV.2 ∧ Request.envCreate r e ∉ pV.2) ∧
    ((∀ t ∈ targetList (if bm then selR else [repo]) (if bm then selE else [env]),
        ∃ s, (oracle t.1 t.2).write = FetchOutcome.resp s) →
      pS.1 = Except.ok
        (((targetList (if bm then selR else [repo]) (if bm then selE else [env])).filter
            (EnvironmentManager.writeOk oracle)).length,
          (if bm then selR else [repo]).length * (if bm then selE else [env]).length)) ∧
    (∀ o2 : String → String → TargetBehavior,
      (∀ r e, (oracle r e).write = (o2 r e).write) →
      EnvironmentManager.createSecret sn sv repo env bm selR selE o2 = some pS ∧
      EnvironmentManager.createVariable vn vv repo env bm selR selE o2 = some pV) := by
  have hSeq := EnvironmentManager.createSecret_some hS
  have hVeq := EnvironmentManager.createVariable_some hV
  have hsecret : ∀ req ∈ pS.2, (∃ r e body, req = Request.secretPut r e sn body) ∨
      req = Request.secretsList repo env := by
    intro req hmem
    rw [hSeq] at hmem
    rcases List.mem_append.mp hmem with h2 | h2
    · obtain ⟨t, ht, hreq⟩ := EnvironmentManager.runWrites_trace_shape _ oracle _ _ h2
      exact Or.inl ⟨t.1, t.2, btoa sv, hreq⟩
    · split at h2
      · exact Or.inr (by simpa using h2)
      · simp at h2
  have hvar : ∀ req ∈ pV.2, (∃ r e val, req = Request.varPost r e vn val) ∨
      req = Request.variablesList repo env := by
    intro req hmem
    rw [hVeq] at hmem
    rcases List.mem_append.mp hmem with h2 | h2
    · obtain ⟨t, ht, hreq⟩ := EnvironmentManager.runWrites_trace_shape _ oracle _ _ h2
      exact Or.inl ⟨t.1, t.2, vv, hreq⟩
    · split at h2
      · exact Or.inr (by simpa using h2)
      · simp at h2
  refine ⟨hsecret, ?_, hvar, ?_, ?_, ?_, ?_, ?_⟩
  · rw [hSeq]
    constructor
    · intro hmem
      rcases List.mem_append.mp hmem with h2 | h2
      · obtain ⟨t, ht, hreq⟩ := EnvironmentManager.runWrites_trace_shape _ oracle _ _ h2
        exact absurd hreq (by simp)
      · rcases hrun : (EnvironmentManager.runWrites
            (fun r e => Request.secretPut r e sn (btoa sv)) oracle
            (targetList (if bm then selR else [repo]) (if bm then selE else [env]))).1
          with m | cnt
        · rw [hrun] at h2
          simp at h2
        · exact ⟨_, rfl⟩
    · rintro ⟨c, hok⟩
      rcases hrun : (EnvironmentManager.runWrites
          (fun r e => Request.secretPut r e sn (btoa sv)) oracle
          (targetList (if bm then selR else [repo]) (if bm then selE else [env]))).1
        with m | cnt
      · rw [hrun] at hok
        exact absurd hok (by simp [Except.map])
      · refine List.mem_append.mpr (Or.inr ?_)
        simp
  · rw [hVeq]
    constructor
    · intro hmem
      rcases List.mem_append.mp hmem with h2 | h2
      · obtain ⟨t, ht, hreq⟩ := EnvironmentManager.runWrites_trace_shape _ oracle _ _ h2
        exact absurd hreq (by simp)
      · rcases hrun : (EnvironmentManager.runWrites
            (fun r e => Request.varPost r e vn vv) oracle
            (targetList (if bm then selR else [repo]) (if bm then selE else [env]))).1
          with m | cnt
        · rw [hrun] at h2
          simp at h2
        · exact ⟨_, rfl⟩
    · rintro ⟨c, hok⟩
      rcases hrun : (EnvironmentManager.runWrites
          (fun r e => Request.varPost r e vn vv) oracle
          (targetList (if bm then selR else [repo]) (if bm then selE else [env]))).1
        with m | cnt
      · rw [hrun] at hok
        exact absurd hok (by simp [Except.map])
      · refine List.mem_append.mpr (Or.inr ?_)
        simp
  · intro r e
    constructor
    · intro hmem
      rcases hsecret _ hmem with ⟨r2, e2, body, heq⟩ | heq <;> exact Request.noConfusion heq
    · intro hmem
      rcases hsecret _ hmem with ⟨r2, e2, body, heq⟩ | heq <;> exact Request.noConfusion heq
  · intro r e
    constructor
    · intro hmem
      rcases hvar _ hmem with ⟨r2, e2, val, heq⟩ | heq <;> exact Request.noConfusion heq
    · intro hmem
      rcases hvar _ hmem with ⟨r2, e2, val, heq⟩ | heq <;> exact Request.noConfusion heq
  · intro hresp
    rw [hSeq]
    rw [(EnvironmentManager.runWrites_all_resp _ oracle _ hresp).1]
    rfl
  · intro o2 hw
    exact ⟨(EnvironmentManager.createSecret_env_independent sn sv repo env bm selR selE
        oracle o2 hw).symm.trans hS,
      (EnvironmentManager.createVariable_env_independent vn vv repo env bm selR selE
        oracle o2 hw).symm.trans hV⟩

theorem c10_witness : ∃ pS pV,
    EnvironmentManager.createSecret "TOKEN" "v1" "api" "production" false ["x"] ["y"]
      oracleAllOk = some pS ∧
    EnvironmentManager.createVariable "FLAG" "v2" "api" "production" false ["x"] ["y"]
      oracleAllOk = some pV ∧
    (∀ r e, Request.envCheck r e ∉ pS.2 ∧ Request.envCreate r e ∉ pS.2) ∧
    (∀ req ∈ pV.2, (∃ r e val, req = Request.varPost r e "FLAG" val) ∨
      req = Request.variablesList "api" "production") ∧
    (Request.secretsList "api" "production" ∈ pS.2 ↔ ∃ c, pS.1 = Except.ok c) := by
  refine ⟨_, _, rfl, rfl, ?_, ?_, ?_⟩
  · exact (c10_environment_manager_frame "TOKEN" "v1" "FLAG" "v2" "api" "production" false
      ["x"] ["y"] oracleAllOk _ _ rfl rfl).2.2.2.2.1
  · exact (c10_environment_manager_frame "TOKEN" "v1" "FLAG" "v2" "api" "production" false
      ["x"] ["y"] oracleAllOk _ _ rfl rfl).2.2.1
  · exact (c10_environment_manager_frame "TOKEN" "v1" "FLAG" "v2" "api" "production" false
      ["x"] ["y"] oracleAllOk _ _ rfl rfl).2.1

/-- C4: for every inventory scan over duplicate-free repositories and the
fixed environment vocabulary, and every discovered name (assuming each
per-pair listing reports a name at most once), the entry's locations and
missingIn lists partition the full repository × environment grid: together
they contain exactly the grid's pairs, they share none, and neither holds a
duplicate. -/
theorem c4_inventory_partition (listing : String → String → Option (List String))
    (repos : List String) (hr : repos.Nodup)
    (hnod : ∀ r e names, listing r e = some names → names.Nodup) :
    ∀ entry ∈ GlobalSecretsList.scan listing repos,
      (∀ loc : String × String,
        (loc ∈ entry.locations ∨ loc ∈ entry.missingIn) ↔
          loc ∈ targetList repos COMMON_ENVIRONMENTS) ∧
      (∀ loc : String × String, loc ∈ entry.locations → loc ∉ entry.missingIn) ∧
      entry.locations.Nodup ∧ entry.missingIn.Nodup := by
  intro entry hentry
  have hceNodup : COMMON_ENVIRONMENTS.Nodup := by decide
  have hgrid : (targetList repos COMMON_ENVIRONMENTS).Nodup := nodup_targetList hr hceNodup
  have hcefree : ∀ e ∈ COMMON_ENVIRONMENTS, ':' ∉ e.data := by decide
  unfold GlobalSecretsList.scan GlobalSecretsList.computeMissing at hentry
  obtain ⟨p, hp, hpe⟩ := List.mem_map.mp hentry
  have hkn : (GlobalSecretsList.keysOf
      (GlobalSecretsList.scanDefined listing repos COMMON_ENVIRONMENTS)).Nodup := by
    unfold GlobalSecretsList.scanDefined
    exact GlobalSecretsList.keyNodup_scanFold listing _ []
      (by simp [GlobalSecretsList.keysOf])
  have hpmem : (p.1, p.2) ∈ GlobalSecretsList.scanDefined listing repos COMMON_ENVIRONMENTS := by
    simpa using hp
  have hfv := GlobalSecretsList.findVals_of_mem hkn hpmem
  have hlocs : p.2 =
      (targetList repos COMMON_ENVIRONMENTS).filter (GlobalSecretsList.reportsB listing p.1) := by
    have h1 := GlobalSecretsList.findVals_scanFold listing hnod p.1
      (targetList repos COMMON_ENVIRONMENTS) []
    unfold GlobalSecretsList.scanDefined at hfv
    rw [hfv] at h1
    simpa [GlobalSecretsList.findVals] using h1
  subst hpe
  simp only
  have hsubset : ∀ loc : String × String, loc ∈ p.2 →
      loc ∈ targetList repos COMMON_ENVIRONMENTS := by
    intro loc hl
    rw [hlocs] at hl
    exact (List.mem_filter.mp hl).1
  refine ⟨?_, ?_, ?_, ?_⟩
  · intro loc
    constructor
    · rintro (hl | hm)
      · exact hsubset loc hl
      · exact (List.mem_filter.mp hm).1
    · intro hg
      by_cases hc : (p.2.map GlobalSecretsList.locKey).contains
          (GlobalSecretsList.locKey loc) = true
      · left
        have hmem : GlobalSecretsList.locKey loc ∈ p.2.map GlobalSecretsList.locKey := by
          simpa using hc
        obtain ⟨loc2, hl2, hkey⟩ := List.mem_map.mp hmem
        have hg2 : loc2 ∈ targetList repos COMMON_ENVIRONMENTS := hsubset loc2 hl2
        have he2 : ':' ∉ loc2.2.data := hcefree _ (mem_targetList.mp hg2).2
        have he1 : ':' ∉ loc.2.data := hcefree _ (mem_targetList.mp hg).2
        obtain ⟨hr12, he12⟩ := GlobalSecretsList.locKey_inj he2 he1 hkey
        have : loc2 = loc := Prod.ext hr12 he12
        rwa [← this]
      · right
        refine List.mem_filter.mpr ⟨hg, ?_⟩
        simp only [Bool.not_eq_true] at hc
        rw [hc]
        rfl
  · intro loc hl hm
    have hkey : GlobalSecretsList.locKey loc ∈ p.2.map GlobalSecretsList.locKey :=
      List.mem_map_of_mem _ hl
    have hcond := (List.mem_filter.mp hm).2
    have hc : (p.2.map GlobalSecretsList.locKey).contains
        (GlobalSecretsList.locKey loc) = true := by simpa using hkey
    rw [hc] at hcond
    simp at hcond
  · rw [hlocs]
    exact hgrid.filter _
  · exact hgrid.filter _

/-- Listing on which the name TOKEN exists exactly at (api, production) and
(web, staging), and nothing else exists anywhere. -/
def listing0 : String → String → Option (List String) :=
  fun r e =>
    if (r = "api" && e = "production") || (r = "web" && e = "staging") then some ["TOKEN"]
    else some []

theorem c4_witness : ∃ entry,
    entry ∈ GlobalSecretsList.scan listing0 ["api", "web"] ∧
    entry.name = "TOKEN" ∧
    entry.locations = [("api", "production"), ("web", "staging")] ∧
    ("api", "staging") ∈ entry.missingIn ∧
    (∀ loc : String × String, loc ∈ entry.locations → loc ∉ entry.missingIn) := by
  have hnod0 : ∀ r e names, listing0 r e = some names → names.Nodup := by
    intro r e names h
    unfold listing0 at h
    split at h
    · rw [← Option.some_inj.mp h]
      decide
    · rw [← Option.some_inj.mp h]
      decide
  refine ⟨⟨"TOKEN", [("api", "production"), ("web", "staging")],
    [("api", "staging"), ("api", "development"), ("api", "preview"),
      ("web", "production"), ("web", "development"), ("web", "preview")]⟩,
    by decide, rfl, rfl, by decide, ?_⟩
  exact (c4_inventory_partition listing0 ["api", "web"] (by decide) hnod0 _ (by decide)).2.1

end GhSecrets
